import Mathlib

/-!
# Verification of the interactive proof-checking engine

A shallow embedding, in Lean 4, of the core components of the
rocqstar-agentic-system repository (TypeScript): the proof-preparation
utilities, the LSP diagnostic filter and goal extraction, the scratch-document
code-execution transaction, the per-session proof-version store
(`SessionManager`), and the `/check-proof` controller operation.

Modelling conventions:
* TypeScript strings are Lean `String`s; the JS-specific string operations
  (`split`, first-occurrence `replace`, `includes`, `trim`, `slice` with a
  possibly negative bound) are given explicit Lean definitions mirroring the
  ECMAScript semantics.
* JS `Map` objects (insertion-ordered, `set` overwrites in place) are
  association lists `List (String × α)`.
* Asynchronous external calls (coq-lsp responses, diagnostics) are oracle
  arguments: the function receives the response the external process would
  have produced, and the state transition is modelled explicitly.
* `crypto.createHash("sha256").update(JSON.stringify(content)).update(parent)`
  is modelled by keeping the digest *input* (a faithful `JSON.stringify`
  encoding of the line array followed by the parent hash) as the hash value:
  this preserves determinism, which is the only property of sha256 the
  engine relies on.
-/

set_option maxRecDepth 10000

namespace RocqStar

/-! ## JS string primitives -/

/-- JS `lines.join("\n")`. -/
def joinLines (lines : List String) : String :=
  String.intercalate "\n" lines

/-- Exact match of `pat` at the front of the input, returning the remainder;
refuses the empty pattern. -/
def matchExactRest : List Char → List Char → Option (List Char)
  | [], cs => some cs
  | _ :: _, [] => none
  | p :: ps, c :: cs => if c = p then matchExactRest ps cs else none

def matchExact (pat s : List Char) : Option (List Char) :=
  match pat with
  | [] => none
  | _ :: _ => matchExactRest pat s

theorem matchExactRest_drop {ps cs r : List Char} (h : matchExactRest ps cs = some r) :
    r = cs.drop ps.length := by
  induction ps generalizing cs with
  | nil => simpa [matchExactRest] using h.symm
  | cons p ps ih =>
    cases cs with
    | nil => simp [matchExactRest] at h
    | cons c cs =>
      by_cases hc : c = p
      · simpa using ih (by simpa [matchExactRest, hc] using h)
      · simp [matchExactRest, hc] at h

theorem matchExact_length_lt {pat s r : List Char} (h : matchExact pat s = some r)
    (hs : s ≠ []) : r.length < s.length := by
  cases pat with
  | nil => simp [matchExact] at h
  | cons p ps =>
    have hr : r = s.drop (p :: ps).length :=
      matchExactRest_drop (by simpa [matchExact] using h)
    rw [hr]
    cases s with
    | nil => exact absurd rfl hs
    | cons c cs =>
      simp only [List.length_cons, List.drop_succ_cons]
      calc (cs.drop ps.length).length ≤ cs.length := by
            simpa using List.length_drop_le _ _
        _ < cs.length + 1 := Nat.lt_succ_self _

/-- JS `s.split(sep)` for a non-empty separator, on character lists: chunks
between non-overlapping left-to-right occurrences of the separator. The
recursion is structural on a fuel argument (set to the input length, which
the scan never exhausts) so that the definition evaluates inside the kernel;
`String.splitOn` agrees but is well-founded and does not. -/
def splitOnCharsGo (sep : List Char) : Nat → List Char → List Char → List (List Char)
  | _, [], acc => [acc.reverse]
  | 0, l, acc => [acc.reverse ++ l]
  | fuel + 1, c :: cs, acc =>
    match matchExact sep (c :: cs) with
    | some rest => acc.reverse :: splitOnCharsGo sep fuel rest []
    | none => splitOnCharsGo sep fuel cs (c :: acc)

/-- JS `s.split(sep)` for a non-empty separator. -/
def jsSplit (s sep : String) : List String :=
  (splitOnCharsGo sep.data s.data.length s.data []).map String.mk

/-- JS `s.replace(pat, "")` with a plain-string pattern: removes only the
first occurrence of `pat` from `s` (identity when `pat` does not occur). -/
def replaceFirstWithEmpty (s pat : String) : String :=
  match jsSplit s pat with
  | [] => s
  | [_] => s
  | p0 :: p1 :: rest => p0 ++ String.intercalate pat (p1 :: rest)

/-- JS `s.includes(pat)` for a non-empty pattern `pat`. -/
def includesStr (s pat : String) : Bool :=
  decide (2 ≤ (jsSplit s pat).length)

/-- The whitespace class removed by JS `String.prototype.trim` (ASCII part). -/
def isJsSpace (c : Char) : Bool :=
  c = ' ' || c = '\t' || c = '\n' || c = '\r' || c = '\x0b' || c = '\x0c'

/-- JS `trim` on a character list: strip whitespace from both ends. -/
def trimChars (l : List Char) : List Char :=
  ((l.dropWhile isJsSpace).reverse.dropWhile isJsSpace).reverse

/-- JS `s.trim()`. -/
def jsTrim (s : String) : String :=
  String.mk (trimChars s.data)

/-! ## Case-insensitive literal matching (for the `gi`-flagged regexes of
`prepareProofToCheck`) -/

/-- Match `pat` case-insensitively at the front of `cs`; on success return the
remainder of `cs` after the pattern. -/
def matchCIRest : List Char → List Char → Option (List Char)
  | [], cs => some cs
  | _ :: _, [] => none
  | p :: ps, c :: cs => if c.toLower = p.toLower then matchCIRest ps cs else none

/-- Case-insensitive match of a pattern at the front of the input, refusing the
empty pattern (the source only matches non-empty literals). -/
def matchCI (pat s : List Char) : Option (List Char) :=
  match pat with
  | [] => none
  | _ :: _ => matchCIRest pat s

theorem matchCIRest_drop {ps cs r : List Char} (h : matchCIRest ps cs = some r) :
    r = cs.drop ps.length := by
  induction ps generalizing cs with
  | nil => simpa [matchCIRest] using h.symm
  | cons p ps ih =>
    cases cs with
    | nil => simp [matchCIRest] at h
    | cons c cs =>
      by_cases hc : c.toLower = p.toLower
      · simpa using ih (by simpa [matchCIRest, hc] using h)
      · simp [matchCIRest, hc] at h

theorem matchCI_drop {pat s r : List Char} (h : matchCI pat s = some r) :
    r = s.drop pat.length := by
  cases pat with
  | nil => simp [matchCI] at h
  | cons p ps => exact matchCIRest_drop (by simpa [matchCI] using h)

theorem matchCI_length {pat s r : List Char} (h : matchCI pat s = some r) :
    r.length ≤ s.length := by
  rw [matchCI_drop h]
  simpa using List.length_drop_le _ _

theorem matchCI_length_lt {pat s r : List Char} (hpat : pat ≠ [])
    (h : matchCI pat s = some r) (hs : s ≠ []) : r.length < s.length := by
  rw [matchCI_drop h]
  cases pat with
  | nil => exact absurd rfl hpat
  | cons p ps =>
    cases s with
    | nil => exact absurd rfl hs
    | cons c cs =>
      simp only [List.length_cons, List.drop_succ_cons]
      calc (cs.drop ps.length).length ≤ cs.length := by
            simpa using List.length_drop_le _ _
        _ < cs.length + 1 := Nat.lt_succ_self _

theorem matchCI_subset {pat s r : List Char} (h : matchCI pat s = some r) :
    r ⊆ s := by
  rw [matchCI_drop h]; exact List.drop_subset _ _

/-- JS `s.replace(re, "")` for a global, case-insensitive literal regex such
as `/Proof\./gi`: remove every (non-overlapping, left-to-right) occurrence.
Structural fuel recursion as in `splitOnCharsGo`. -/
def removeAllCIGo (pat : List Char) : Nat → List Char → List Char
  | _, [] => []
  | 0, l => l
  | fuel + 1, c :: cs =>
    match matchCI pat (c :: cs) with
    | some rest => removeAllCIGo pat fuel rest
    | none => c :: removeAllCIGo pat fuel cs

def removeAllCI (pat l : List Char) : List Char :=
  removeAllCIGo pat l.length l

theorem removeAllCIGo_subset (pat : List Char) (fuel : Nat) :
    ∀ l : List Char, removeAllCIGo pat fuel l ⊆ l := by
  induction fuel with
  | zero => intro l; cases l <;> simp [removeAllCIGo]
  | succ fuel ih =>
    intro l
    cases l with
    | nil => simp [removeAllCIGo]
    | cons c cs =>
      cases hmatch : matchCI pat (c :: cs) with
      | some rest =>
        rw [removeAllCIGo, hmatch]
        exact fun x hx => matchCI_subset hmatch (ih rest hx)
      | none =>
        rw [removeAllCIGo, hmatch]
        intro x hx
        rcases List.mem_cons.mp hx with h1 | h1
        · simp [h1]
        · exact List.mem_cons_of_mem _ (ih cs h1)

theorem removeAllCI_subset (pat : List Char) (l : List Char) :
    removeAllCI pat l ⊆ l :=
  removeAllCIGo_subset pat l.length l

/-- The `.*?\.` part of `/Proof using.*?\./gi`: skip to the first `'.'` on the
same line (JS `.` does not match line terminators), returning the remainder
after it; fail when a line terminator or the end of input comes first. -/
def dropToDotSameLine : List Char → Option (List Char)
  | [] => none
  | c :: cs =>
    if c = '.' then some cs
    else if c = '\n' then none
    else if c = '\r' then none
    else dropToDotSameLine cs

theorem dropToDotSameLine_length {l r : List Char} (h : dropToDotSameLine l = some r) :
    r.length < l.length := by
  induction l with
  | nil => simp [dropToDotSameLine] at h
  | cons c cs ih =>
    by_cases hdot : c = '.'
    · simp [dropToDotSameLine, hdot] at h
      simp [← h]
    · by_cases hnl : c = '\n'
      · simp [dropToDotSameLine, hdot, hnl] at h
      · by_cases hcr : c = '\r'
        · simp [dropToDotSameLine, hdot, hnl, hcr] at h
        · have h' : dropToDotSameLine cs = some r := by
            simpa [dropToDotSameLine, hdot, hnl, hcr] using h
          exact Nat.lt_trans (ih h') (Nat.lt_succ_self _)

theorem dropToDotSameLine_subset {l r : List Char} (h : dropToDotSameLine l = some r) :
    r ⊆ l := by
  induction l with
  | nil => simp [dropToDotSameLine] at h
  | cons c cs ih =>
    by_cases hdot : c = '.'
    · simp [dropToDotSameLine, hdot] at h
      rw [← h]; exact List.subset_cons_self _ _
    · by_cases hnl : c = '\n'
      · simp [dropToDotSameLine, hdot, hnl] at h
      · by_cases hcr : c = '\r'
        · simp [dropToDotSameLine, hdot, hnl, hcr] at h
        · have h' : dropToDotSameLine cs = some r := by
            simpa [dropToDotSameLine, hdot, hnl, hcr] using h
          exact List.Subset.trans (ih h') (List.subset_cons_self _ _)

/-- The literal part of `/Proof using.*?\./gi`. -/
def proofUsingPat : List Char := "Proof using".data

/-- One attempted match of `/Proof using.*?\./i` at the front of the input:
the literal `Proof using` (case-insensitive) followed non-greedily, within the
line, by a `'.'`. Failure of either part means the regex does not match at
this position (the scan then advances one character). -/
def matchProofUsing (l : List Char) : Option (List Char) :=
  (matchCI proofUsingPat l).bind dropToDotSameLine

theorem matchProofUsing_length {l r : List Char} (hl : l ≠ [])
    (h : matchProofUsing l = some r) : r.length < l.length := by
  rcases Option.bind_eq_some.mp h with ⟨afterPat, h1, h2⟩
  have hne : proofUsingPat ≠ [] := by simp [proofUsingPat]
  exact Nat.lt_trans (dropToDotSameLine_length h2) (matchCI_length_lt hne h1 hl)

theorem matchProofUsing_subset {l r : List Char} (h : matchProofUsing l = some r) :
    r ⊆ l := by
  rcases Option.bind_eq_some.mp h with ⟨afterPat, h1, h2⟩
  exact List.Subset.trans (dropToDotSameLine_subset h2) (matchCI_subset h1)

/-- JS `s.replace(/Proof using.*?\./gi, "")`: at each position try to match
the literal `Proof using` case-insensitively followed (non-greedily, within
the line) by a `'.'`; remove each such match, scanning left to right.
Structural fuel recursion as in `splitOnCharsGo`. -/
def removeProofUsingCIGo : Nat → List Char → List Char
  | _, [] => []
  | 0, l => l
  | fuel + 1, c :: cs =>
    match matchProofUsing (c :: cs) with
    | some rest => removeProofUsingCIGo fuel rest
    | none => c :: removeProofUsingCIGo fuel cs

def removeProofUsingCI (l : List Char) : List Char :=
  removeProofUsingCIGo l.length l

theorem removeProofUsingCIGo_subset (fuel : Nat) :
    ∀ l : List Char, removeProofUsingCIGo fuel l ⊆ l := by
  induction fuel with
  | zero => intro l; cases l <;> simp [removeProofUsingCIGo]
  | succ fuel ih =>
    intro l
    cases l with
    | nil => simp [removeProofUsingCIGo]
    | cons c cs =>
      cases hmatch : matchProofUsing (c :: cs) with
      | some rest =>
        rw [removeProofUsingCIGo, hmatch]
        exact fun x hx => matchProofUsing_subset hmatch (ih rest hx)
      | none =>
        rw [removeProofUsingCIGo, hmatch]
        intro x hx
        rcases List.mem_cons.mp hx with h | h
        · simp [h]
        · exact List.mem_cons_of_mem _ (ih cs h)

theorem removeProofUsingCI_subset (l : List Char) :
    removeProofUsingCI l ⊆ l :=
  removeProofUsingCIGo_subset l.length l

theorem trimChars_subset (l : List Char) : trimChars l ⊆ l := by
  unfold trimChars
  intro x hx
  have h1 : x ∈ (l.dropWhile isJsSpace).reverse.dropWhile isJsSpace := by
    simpa using hx
  have h2 : x ∈ (l.dropWhile isJsSpace).reverse :=
    List.dropWhile_subset _ h1
  have h3 : x ∈ l.dropWhile isJsSpace := by simpa using h2
  exact List.dropWhile_subset _ h3

/-! ## `prepareProofToCheck` (proofPreparationUtil) -/

/-- The backtick character, `` '`' ``. -/
def backtick : Char := Char.ofNat 96

/-- `prepareProofToCheck` from `proofPreparationUtil.ts`: strip backticks,
delete `Proof using...`-to-dot segments, `Proof.`, `Qed.`, `Admitted.`, `Abort.`
(case-insensitively, globally), then wrap the trimmed result as
`"Proof. " + trimmed + " "`. -/
def prepareProofToCheck (proof : String) : String :=
  let noBackticks := proof.data.filter (fun c => c ≠ backtick)
  let s1 := removeProofUsingCI noBackticks
  let s2 := removeAllCI "Proof.".data s1
  let s3 := removeAllCI "Qed.".data s2
  let s4 := removeAllCI "Admitted.".data s3
  let s5 := removeAllCI "Abort.".data s4
  "Proof. " ++ String.mk (trimChars s5) ++ " "

theorem prepareProofToCheck_data (proof : String) :
    (prepareProofToCheck proof).data =
      "Proof. ".data ++
        trimChars (removeAllCI "Abort.".data (removeAllCI "Admitted.".data
          (removeAllCI "Qed.".data (removeAllCI "Proof.".data
            (removeProofUsingCI (proof.data.filter (fun c => c ≠ backtick))))))) ++
        " ".data := by
  simp [prepareProofToCheck, String.data_append]

/-- C10: for every input string, `prepareProofToCheck` returns a string that
begins with the prefix `"Proof. "` and contains no backtick characters, so
every fragment submitted through check-proof is checked and committed in this
normalized form rather than verbatim. -/
theorem c10_prepareProofToCheck_normal_form (proof : String) :
    "Proof. ".data.isPrefixOf (prepareProofToCheck proof).data = true ∧
    backtick ∉ (prepareProofToCheck proof).data := by
  rw [prepareProofToCheck_data]
  constructor
  · rw [List.isPrefixOf_iff_prefix]
    exact (List.prefix_append _ _).trans (List.prefix_append _ _)
  · intro hmem
    rcases List.mem_append.mp hmem with h | h
    · rcases List.mem_append.mp h with h1 | h1
      · revert h1; simp [backtick]
      · have h2 := trimChars_subset _ h1
        have h3 := removeAllCI_subset "Abort.".data _ h2
        have h4 := removeAllCI_subset "Admitted.".data _ h3
        have h5 := removeAllCI_subset "Qed.".data _ h4
        have h6 := removeAllCI_subset "Proof.".data _ h5
        have h7 := removeProofUsingCI_subset _ h6
        have := (List.mem_filter.mp h7).2
        simp at this
    · revert h; simp [backtick]

/-! ## LSP data model (coqLspClient.ts)

Positions and ranges are zero-based; the LSP `Range.end` field is called
`stop` here because `end` is a Lean keyword. -/

structure Position where
  line : Nat
  character : Nat
deriving Repr, DecidableEq

structure Range where
  start : Position
  stop : Position
deriving Repr, DecidableEq

structure Diagnostic where
  severity : Nat
  message : String
  range : Range
deriving Repr, DecidableEq

structure LspDiagnostic where
  ppMessage : String
  range : Range
deriving Repr, DecidableEq

/-- `CoqLspClientImpl.removeTraceFromLspError`: cut the message at the first
`"Raised at"` marker and trim; with no marker, keep only the first line
(defaulting to the unknown-error text). -/
def removeTraceFromLspError (errorMsgWithTrace : String) : String :=
  let traceStartString := "Raised at"
  let unknownErrorString := "Unknown LSP error has occurred"
  if ¬ includesStr errorMsgWithTrace traceStartString then
    ((jsSplit errorMsgWithTrace "\n").head?).getD unknownErrorString
  else
    jsTrim (((jsSplit errorMsgWithTrace traceStartString).head?).getD "")

/-- `CoqLspClientImpl.filterDiagnostics`: keep diagnostics whose range starts
on a line at or after the anchor's line, keep severity-1 (error) ones, and
take the first. -/
def filterDiagnostics (diagnostics : List Diagnostic) (position : Position) :
    Option LspDiagnostic :=
  let firstDiagnostic :=
    ((diagnostics.filter (fun diag => position.line ≤ diag.range.start.line)).filter
      (fun diag => diag.severity == 1)).head?
  match firstDiagnostic with
  | none => none
  | some d => some { ppMessage := removeTraceFromLspError d.message, range := d.range }

theorem head?_filter_eq_find? {α : Type} (p : α → Bool) (l : List α) :
    (l.filter p).head? = l.find? p := by
  induction l with
  | nil => rfl
  | cons a l ih =>
    by_cases h : p a
    · simp [List.filter_cons, List.find?_cons, h]
    · simp only [List.filter_cons, List.find?_cons, h]
      simpa [h] using ih

/-! ## Goal extraction (`getGoalsAtPointUnsafe`) -/

structure Hyp where
  names : List String
  ty : String
deriving Repr, DecidableEq

structure ProofGoal where
  ty : String
  hyps : List Hyp
deriving Repr, DecidableEq

/-- The checker's `GoalConfig`: the current goals plus the stack of goals
behind unfocused bullets/branches; each stack level is a pair of goal lists
and the code inspects the second component of each pair. -/
structure GoalConfig where
  goals : List ProofGoal
  stack : List (List ProofGoal × List ProofGoal)
deriving Repr, DecidableEq

/-- Outcome of `getGoalsAtPointUnsafe` on the non-exception path. The
`stack_subgoals` error of the source carries `JSON.stringify(substackGoals)`;
the model carries the stringified list itself. `unknownError` covers both
`goalAnswer === undefined` and `goalAnswer.goals === undefined`. -/
inductive GoalsResult where
  | ok (goals : List ProofGoal)
  | stackSubgoals (substackGoals : List (Nat × List ProofGoal))
  | unknownError
deriving Repr, DecidableEq

/-- The `for`-loop of `getGoalsAtPointUnsafe`: scan the stack from index `i`
upward; at the first level whose second component is non-empty, push that
`(index, goals)` pair and break. -/
def substackScanFrom : Nat → List (List ProofGoal × List ProofGoal) →
    List (Nat × List ProofGoal)
  | _, [] => []
  | i, goalsAtDepth :: rest =>
    if goalsAtDepth.2.length = 0 then substackScanFrom (i + 1) rest
    else [(i, goalsAtDepth.2)]

/-- `getGoalsAtPointUnsafe` (coqLspClient.ts): `none` models an undefined
goal answer (or undefined `goals` field). When the substack scan found a
pending level, return the `stack_subgoals` error; otherwise return the
current goal list. -/
def getGoalsAtPointCore (goalAnswer : Option GoalConfig) : GoalsResult :=
  match goalAnswer with
  | none => GoalsResult.unknownError
  | some cfg =>
    let substackGoals := substackScanFrom 0 cfg.stack
    if substackGoals.length = 0 then GoalsResult.ok cfg.goals
    else GoalsResult.stackSubgoals substackGoals

/-- Specification-side reading of the scan: the first depth (from 0) whose
pending-goal component is non-empty, with those goals. -/
def firstPendingDepth (stack : List (List ProofGoal × List ProofGoal)) :
    Option (Nat × List ProofGoal) :=
  (stack.enum.find? (fun p => ¬ p.2.2.isEmpty)).map (fun p => (p.1, p.2.2))

theorem substackScanFrom_eq_firstPending (n : Nat)
    (stack : List (List ProofGoal × List ProofGoal)) :
    substackScanFrom n stack =
      match (stack.enumFrom n).find? (fun p => ¬ p.2.2.isEmpty) with
      | none => []
      | some p => [(p.1, p.2.2)] := by
  induction stack generalizing n with
  | nil => rfl
  | cons e rest ih =>
    by_cases h : e.2.length = 0
    · have hemp : e.2.isEmpty = true := by
        cases hs : e.2 with
        | nil => rfl
        | cons x xs => rw [hs] at h; simp at h
      simp only [substackScanFrom, if_pos h, List.enumFrom, List.find?_cons]
      simpa [hemp] using ih (n + 1)
    · have hne : e.2 ≠ [] := by
        intro hx; rw [hx] at h; simp at h
      simp [substackScanFrom, if_neg h, List.enumFrom, List.find?_cons, hne]

/-- C5 (amended): goal extraction scans the depth-indexed stack from index 0
upward and answers at the first depth with at least one pending goal; for
*every* such depth — including depth 0 — it returns the stacked-subgoals
condition carrying that depth and those goals, never plain success; the goal
list is returned as ordinary success exactly when no stack level has pending
goals. -/
theorem c5_goal_extraction_policy (cfg : GoalConfig) :
    getGoalsAtPointCore (some cfg) =
      match firstPendingDepth cfg.stack with
      | none => GoalsResult.ok cfg.goals
      | some (i, gs) => GoalsResult.stackSubgoals [(i, gs)] := by
  show (let substackGoals := substackScanFrom 0 cfg.stack
        if substackGoals.length = 0 then GoalsResult.ok cfg.goals
        else GoalsResult.stackSubgoals substackGoals) = _
  rw [substackScanFrom_eq_firstPending]
  unfold firstPendingDepth
  have henum : cfg.stack.enum = cfg.stack.enumFrom 0 := rfl
  rw [henum]
  cases hf : (cfg.stack.enumFrom 0).find? (fun p => ¬ p.2.2.isEmpty) with
  | none => simp
  | some p => simp

/-- Concrete stack with pending goals at depth 0. -/
def cfgC5 : GoalConfig :=
  { goals := [{ ty := "A", hyps := [] }],
    stack := [([], [{ ty := "B", hyps := [] }])] }

/-- C5 counterexample: when the first depth with a pending goal is depth 0,
the code still returns the stacked-subgoals condition (carrying depth 0), not
the goal list as ordinary success, contrary to the claim's depth-0 case. -/
theorem c5_counterexample :
    getGoalsAtPointCore (some cfgC5) =
      GoalsResult.stackSubgoals [(0, [{ ty := "B", hyps := [] }])] ∧
    getGoalsAtPointCore (some cfgC5) ≠ GoalsResult.ok cfgC5.goals := by
  constructor
  · rfl
  · decide

/-- C8 (amended): the diagnostic filter compares only the *line* of the range
start with the anchor's line: it returns the first error-severity diagnostic
whose range starts on a line at or after the anchor line (the anchor's
character is ignored), and `none` when there is no such diagnostic. -/
theorem c8_filterDiagnostics_line_based (diagnostics : List Diagnostic)
    (position : Position) :
    filterDiagnostics diagnostics position =
      (diagnostics.find?
          (fun d => decide (position.line ≤ d.range.start.line) && d.severity == 1)).map
        (fun d => { ppMessage := removeTraceFromLspError d.message, range := d.range }) := by
  unfold filterDiagnostics
  rw [List.filter_filter, head?_filter_eq_find?]
  have hpred :
      (fun a : Diagnostic => a.severity == 1 && decide (position.line ≤ a.range.start.line)) =
        (fun d : Diagnostic =>
          decide (position.line ≤ d.range.start.line) && d.severity == 1) := by
    funext a; exact Bool.and_comm _ _
  rw [hpred]
  cases hf : diagnostics.find?
      (fun d => decide (position.line ≤ d.range.start.line) && d.severity == 1) with
  | none => simp
  | some d => simp

/-- An error diagnostic starting on the anchor's line but strictly before the
anchor's character. -/
def diagC8 : Diagnostic :=
  { severity := 1, message := "m",
    range := { start := { line := 1, character := 0 },
               stop := { line := 1, character := 2 } } }

/-- The anchor position for the C8 counterexample. -/
def posC8 : Position := { line := 1, character := 5 }

/-- C8 counterexample: a severity-1 diagnostic whose range start is strictly
before the anchor position (same line, smaller character) is still returned,
although the claim says only diagnostics starting at or after the anchor
position are considered. -/
theorem c8_counterexample :
    (filterDiagnostics [diagC8] posC8).isSome = true ∧
    diagC8.range.start.line = posC8.line ∧
    diagC8.range.start.character < posC8.character := by
  refine ⟨?_, rfl, by decide⟩
  rfl

/-! ## The code-execution transaction (`CoqCodeExecutor`)

The scratch document has two faces: the file on disk (written through
`writeFileSync`/`appendFileSync`) and the checker's view of the document (the
last full text pushed through `updateTextDocument`, with its version). The
checker's replies — the first error diagnostic of an update, and the goal
query answer — are oracle arguments. -/

structure ScratchDoc where
  fileContent : String
  lspVersion : Nat
  lspContent : String
deriving Repr, DecidableEq

def writeFileSync (doc : ScratchDoc) (text : String) : ScratchDoc :=
  { doc with fileContent := text }

def appendFileSync (doc : ScratchDoc) (text : String) : ScratchDoc :=
  { doc with fileContent := doc.fileContent ++ text }

/-- `openTextDocument` sends the on-disk content at version 1. -/
def openTextDocument (doc : ScratchDoc) : ScratchDoc :=
  { doc with lspVersion := 1, lspContent := doc.fileContent }

/-- `updateTextDocument oldDocumentText appendedSuffix version` pushes the
full text `oldDocumentText.join("\n") + appendedSuffix` at `version`. -/
def updateTextDocument (doc : ScratchDoc) (oldDocumentText : List String)
    (appendedSuffix : String) (version : Nat) : ScratchDoc :=
  { doc with lspVersion := version,
             lspContent := joinLines oldDocumentText ++ appendedSuffix }

/-- Error answer of a goal query (`getGoalsAtPoint`): a JS `Error` with a
`name` and `message`; for the `stack_subgoals` error the message is the
`JSON.stringify` of the substack payload, which the model carries in
structured form alongside. -/
structure GoalQueryError where
  name : Option String := none
  message : String
  stackPayload : Option (List (Nat × List ProofGoal)) := none
deriving Repr, DecidableEq

/-- The structured error produced by `coqCommandExecutor.ts` and consumed by
`checkCoqProof`/the controller (`CoqCodeExecError` / `ProofError`). -/
structure ProofError where
  message : String
  location : Option Range := none
  name : Option String := none
  stackPayload : Option (List (Nat × List ProofGoal)) := none
deriving Repr, DecidableEq

namespace CoqCodeExecutorStr

/-- `getGoalAfterCoqCodeUnsafe` of the executor variant that reports plain
string errors (the file beside `proofPreparationUtil`): write the baseline,
open, append the candidate, update at `v+1`; an error diagnostic returns
immediately; otherwise query goals, rewrite the baseline and update at `v+2`.
Oracles: `diag` is the first error diagnostic of the `v+1` update, `goalResp`
the goal-query answer. -/
def getGoalAfterCoqCodeUnsafe (prefixLines : List String) (coqCode : String)
    (documentVersion : Nat) (diag : Option LspDiagnostic)
    (goalResp : Except GoalQueryError (List ProofGoal)) (doc : ScratchDoc) :
    Except String (List ProofGoal) × ScratchDoc :=
  let sourceFileContent := joinLines prefixLines
  let doc := writeFileSync doc sourceFileContent
  let doc := openTextDocument doc
  let appendedSuffix := "\n\n" ++ coqCode
  let doc := appendFileSync doc appendedSuffix
  let doc := updateTextDocument doc prefixLines appendedSuffix (documentVersion + 1)
  match diag with
  | some d => (Except.error d.ppMessage, doc)
  | none =>
    let doc := writeFileSync doc sourceFileContent
    let doc := updateTextDocument doc prefixLines "" (documentVersion + 2)
    match goalResp with
    | Except.ok goals => (Except.ok goals, doc)
    | Except.error e => (Except.error e.message, doc)

end CoqCodeExecutorStr

namespace CoqCodeExecutorCmd

/-- `getGoalAfterCoqCodeUnsafe` of `coqCommandExecutor.ts` (the executor the
check-proof operation is wired to): the initial rewrite of the baseline is
commented out in the source; both the diagnostic branch and the goal branch
rewrite the baseline and update at `v+2` before returning. -/
def getGoalAfterCoqCodeUnsafe (prefixLines : List String) (coqCode : String)
    (documentVersion : Nat) (diag : Option LspDiagnostic)
    (goalResp : Except GoalQueryError (List ProofGoal)) (doc : ScratchDoc) :
    Except ProofError (List ProofGoal) × ScratchDoc :=
  let sourceFileContent := joinLines prefixLines
  let doc := openTextDocument doc
  let appendedSuffix := "\n\n" ++ coqCode
  let doc := appendFileSync doc appendedSuffix
  let doc := updateTextDocument doc prefixLines appendedSuffix (documentVersion + 1)
  match diag with
  | some d =>
    let doc := writeFileSync doc sourceFileContent
    let doc := updateTextDocument doc prefixLines "" (documentVersion + 2)
    (Except.error { message := d.ppMessage, location := some d.range }, doc)
  | none =>
    let doc := writeFileSync doc sourceFileContent
    let doc := updateTextDocument doc prefixLines "" (documentVersion + 2)
    match goalResp with
    | Except.ok goals => (Except.ok goals, doc)
    | Except.error e =>
      (Except.error { name := e.name, message := e.message,
                      stackPayload := e.stackPayload }, doc)

end CoqCodeExecutorCmd

/-! ## The proof-version store (`SessionManager`, coqCommandType.ts) -/

/-- A node of the per-session version tree. `validProofStepsPfx` and
`isIncomplete` model the `validProofStepsPrefix` / `isIncomplete` fields the
controller attaches to nodes after checking. -/
structure ProofVersion where
  proofContent : List String
  proofSteps : List String
  parentHash : Option String
  childrenHashes : List String
  validProofStepsPfx : Option (List String) := none
  isIncomplete : Option Bool := none
deriving Repr, DecidableEq

/-- JS `Map.get` on an insertion-ordered association list. -/
def mapGetJS {α : Type} : List (String × α) → String → Option α
  | [], _ => none
  | e :: rest, k => if e.1 == k then some e.2 else mapGetJS rest k

/-- JS `Map.set`: overwrite in place, else append at the end. -/
def mapSetJS {α : Type} : List (String × α) → String → α → List (String × α)
  | [], k, v => [(k, v)]
  | e :: rest, k, v => if e.1 == k then (k, v) :: rest else e :: mapSetJS rest k v

/-- JS `Map.delete`. -/
def mapDeleteJS {α : Type} (m : List (String × α)) (k : String) :
    List (String × α) :=
  m.filter (fun e => !(e.1 == k))

/-- JS `map.keys().next().value`: the first-inserted key. -/
def mapFirstKeyJS {α : Type} (m : List (String × α)) : Option String :=
  m.head?.map (fun e => e.1)

theorem mapGetJS_mapSetJS_same {α : Type} (m : List (String × α)) (k : String)
    (v : α) : mapGetJS (mapSetJS m k v) k = some v := by
  induction m with
  | nil => simp [mapSetJS, mapGetJS]
  | cons e rest ih =>
    by_cases h : e.1 == k
    · simp [mapSetJS, h, mapGetJS]
    · simp [mapSetJS, h, mapGetJS, ih]

theorem mapGetJS_mapSetJS_ne {α : Type} (m : List (String × α)) {k k' : String}
    (v : α) (h : k' ≠ k) : mapGetJS (mapSetJS m k v) k' = mapGetJS m k' := by
  induction m with
  | nil =>
    simp [mapSetJS, mapGetJS]
    exact h.symm
  | cons e rest ih =>
    by_cases he : e.1 == k
    · have hek : e.1 = k := by simpa using he
      have h2 : ¬ (k == k') := by
        simpa using fun hx => h hx.symm
      have h3 : ¬ (e.1 == k') := by
        rw [hek]; exact h2
      simp [mapSetJS, he, mapGetJS, h2, h3]
    · by_cases he' : e.1 == k'
      · simp [mapSetJS, he, mapGetJS, he']
      · simp [mapSetJS, he, mapGetJS, he', ih]

theorem mapSetJS_length_of_mem {α : Type} (m : List (String × α)) (k : String)
    (v : α) (h : (mapGetJS m k).isSome) :
    (mapSetJS m k v).length = m.length := by
  induction m with
  | nil => simp [mapGetJS] at h
  | cons e rest ih =>
    by_cases he : e.1 == k
    · simp [mapSetJS, he]
    · have h' : (mapGetJS rest k).isSome := by
        simpa [mapGetJS, he] using h
      simp [mapSetJS, he, ih h']

theorem mapSetJS_length_of_new {α : Type} (m : List (String × α)) (k : String)
    (v : α) (h : mapGetJS m k = none) :
    (mapSetJS m k v).length = m.length + 1 := by
  induction m with
  | nil => simp [mapSetJS]
  | cons e rest ih =>
    by_cases he : e.1 == k
    · simp [mapGetJS, he] at h
    · have h' : mapGetJS rest k = none := by
        simpa [mapGetJS, he] using h
      simp [mapSetJS, he, ih h']

theorem mapGetJS_mapDeleteJS_same {α : Type} (m : List (String × α))
    (k : String) : mapGetJS (mapDeleteJS m k) k = none := by
  induction m with
  | nil => rfl
  | cons e rest ih =>
    by_cases he : e.1 == k
    · simpa [mapDeleteJS, List.filter_cons, he] using ih
    · simpa [mapDeleteJS, List.filter_cons, he, mapGetJS] using ih

theorem mapFirstKeyJS_mapSetJS_of_ne_nil {α : Type} (m : List (String × α))
    (k : String) (v : α) (h : m ≠ []) :
    mapFirstKeyJS (mapSetJS m k v) = mapFirstKeyJS m := by
  cases m with
  | nil => exact absurd rfl h
  | cons e rest =>
    by_cases he : e.1 == k
    · have : e.1 = k := by simpa using he
      simp [mapSetJS, he, mapFirstKeyJS, this]
    · simp [mapSetJS, he, mapFirstKeyJS]

/-- JS `Map<string, ProofVersion>`: insertion-ordered association list. -/
abbrev PVMap := List (String × ProofVersion)

def jsonEscapeChar (c : Char) : List Char :=
  if c = '\\' then ['\\', '\\']
  else if c = '"' then ['\\', '"']
  else if c = '\n' then ['\\', 'n']
  else if c = '\t' then ['\\', 't']
  else if c = '\r' then ['\\', 'r']
  else [c]

def jsonQuote (s : String) : String :=
  "\"" ++ String.mk ((s.data.map jsonEscapeChar).join) ++ "\""

/-- `JSON.stringify` of a string array. -/
def jsonStringifyStrings (lines : List String) : String :=
  "[" ++ String.intercalate "," (lines.map jsonQuote) ++ "]"

/-- The node hash: the source feeds `JSON.stringify(proofContent)` and then
`parentHash || ""` into sha256; the model keeps the digest input itself as
the hash, which preserves the determinism the store relies on. -/
def hashProofVersion (proofContent : List String) (parentHash : Option String) :
    String :=
  jsonStringifyStrings proofContent ++ parentHash.getD ""

/-- `proofVersion.proofSteps.every((step, i) => proofPortionSteps[i] === step)`:
each step must equal the portion step at the same index (an out-of-range index
compares against `undefined` and fails). -/
def stepsEveryMatches : List String → List String → Bool
  | [], _ => true
  | _ :: _, [] => false
  | s :: ss, p :: ps => (p == s) && stepsEveryMatches ss ps

/-- The full `isPrefix && proofSteps.length <= proofPortionSteps.length` test
of `findPrefixProofVersion`. -/
def isPrefixCheck (steps portionSteps : List String) : Bool :=
  stepsEveryMatches steps portionSteps && decide (steps.length ≤ portionSteps.length)

/-- `findPrefixProofVersion` of `commitProofPortion`: an unresolved hash is
`undefined`; a node passing the prefix test is returned at once (before its
children are visited); otherwise the children are tried in order — the
`for (const childHash of childrenHashes)` loop returning the first defined
answer is `List.findSome?` — and the final fallback is the first-inserted
(root) hash `init`. The source recursion carries no fuel; the `fuel`
argument only bounds the recursion depth, and with `fuel = node count + 1`
(as `commitProofPortion` passes) the cutoff is unreachable on acyclic
stores. -/
def findPrefixProofVersion (init : Option String) (m : PVMap) :
    Nat → String → List String → Option String
  | 0, _, _ => none
  | Nat.succ fuel, hash, portionSteps =>
    match mapGetJS m hash with
    | none => none
    | some proofVersion =>
      if isPrefixCheck proofVersion.proofSteps portionSteps then some hash
      else
        match proofVersion.childrenHashes.findSome?
            (fun childHash =>
              findPrefixProofVersion init m fuel childHash portionSteps) with
        | some result => some result
        | none => init

/-- A `Session` record of the `SessionManager`; the source's `auxFileUri` is
modelled as the path string `auxFilePath`. -/
structure Session where
  id : String
  sourceFilePath : String
  theoremName : String
  theoremStatement : String
  auxFilePath : String
  auxFileVersionNumber : Nat
  filePrefixContent : List String
  proofVersions : PVMap
deriving Repr, DecidableEq

/-- The `SessionManager`'s `sessions` map. -/
abbrev Sessions := List (String × Session)

/-- The root version `startSession` installs. -/
def initialProofVersion : ProofVersion :=
  { proofContent := [], proofSteps := [], parentHash := none, childrenHashes := [] }

/-- Hash of the root version (empty content, null parent). -/
def rootVersionHash : String :=
  hashProofVersion [] none

/-- The content lines `commitProofPortion` stores: every input line with its
first `Proof.` occurrence removed. -/
def commitContentLines (proofPortion : List String) : List String :=
  proofPortion.map (fun line => replaceFirstWithEmpty line "Proof.")

/-- The step list `commitProofPortion` computes:
`proofPortion.map(l => l.split(".")).flat().map(step => step + ".")` applied
to the content lines — every piece gets a dot appended, pieces are not
trimmed and empty pieces are kept. -/
def commitPortionSteps (proofPortion : List String) : List String :=
  (((commitContentLines proofPortion).map (fun line => jsSplit line ".")).join).map
    (fun step => step ++ ".")

/-- `commitProofPortion` (SessionManager): strip the first `Proof.` of each
line, split every line on `.` and re-append a dot to every piece (no
trimming, empties kept), find the attachment node, build the node, push its
hash onto the attachment node's children and insert it, then overwrite the
session's version counter with `newVersion`. -/
def commitProofPortion (sessions : Sessions) (sessionId : String)
    (proofPortion : List String) (newVersion : Nat) (parentHash : String) :
    Option String × Sessions :=
  let proofPortion := commitContentLines proofPortion
  let proofPortionSteps :=
    ((proofPortion.map (fun line => jsSplit line ".")).join).map (fun step => step ++ ".")
  let initialProofVersionHash :=
    (mapGetJS sessions sessionId).bind (fun s => mapFirstKeyJS s.proofVersions)
  match mapGetJS sessions sessionId with
  | none => (none, sessions)
  | some session =>
    match findPrefixProofVersion initialProofVersionHash session.proofVersions
        (session.proofVersions.length + 1) parentHash proofPortionSteps with
    | none => (none, sessions)
    | some foundPrefixVersionHash =>
      let updatedProofVersion : ProofVersion :=
        { proofContent := proofPortion, proofSteps := proofPortionSteps,
          parentHash := some foundPrefixVersionHash, childrenHashes := [] }
      let hash := hashProofVersion proofPortion (some foundPrefixVersionHash)
      match mapGetJS session.proofVersions foundPrefixVersionHash with
      | none => (none, sessions)
      | some foundPrefixVersion =>
        let m1 := mapSetJS session.proofVersions foundPrefixVersionHash
          { foundPrefixVersion with
              childrenHashes := foundPrefixVersion.childrenHashes ++ [hash] }
        let m2 := mapSetJS m1 hash updatedProofVersion
        let session' := { session with proofVersions := m2,
                                       auxFileVersionNumber := newVersion }
        (some hash, mapSetJS sessions sessionId session')

/-- The registry plus the file system visible to it. -/
structure RegistryState where
  sessions : Sessions
  files : List String
deriving Repr, DecidableEq

/-- `unlinkSync`: remove the path or raise; whether it raises is decided by
the oracle `fails`, the cause being outside the model. -/
def unlinkSyncFs (files : List String) (path : String) (fails : Bool) :
    Except String (List String) :=
  if fails then Except.error "unlink failed"
  else Except.ok (files.filter (fun p => !(p == path)))

/-- `closeSession` (SessionManager): when the session exists, try to delete
its auxiliary file — a failure is caught and only logged — and drop the
session entry; an unknown session is only logged. The method never throws. -/
def closeSession (st : RegistryState) (sessionId : String) (unlinkFails : Bool) :
    Except String RegistryState :=
  match mapGetJS st.sessions sessionId with
  | some session =>
    let files' :=
      match unlinkSyncFs st.files session.auxFilePath unlinkFails with
      | Except.ok fs => fs
      | Except.error _ => st.files
    Except.ok { sessions := mapDeleteJS st.sessions sessionId, files := files' }
  | none => Except.ok st

/-! ## Behaviour of `commitProofPortion` when the parent node passes the
prefix test (the regime of a commit under its own parent) -/

/-- The node `commitProofPortion` creates. -/
def commitNodeOf (proofPortion : List String) (foundHash : String) : ProofVersion :=
  { proofContent := commitContentLines proofPortion,
    proofSteps := commitPortionSteps proofPortion,
    parentHash := some foundHash, childrenHashes := [] }

/-- The hash `commitProofPortion` computes for the new node. -/
def commitHashOf (proofPortion : List String) (foundHash : String) : String :=
  hashProofVersion (commitContentLines proofPortion) (some foundHash)

theorem findPrefixProofVersion_of_isPrefix (init : Option String) (m : PVMap)
    (fuel : Nat) (hash : String) (portionSteps : List String) (pv : ProofVersion)
    (hp : mapGetJS m hash = some pv)
    (hpre : isPrefixCheck pv.proofSteps portionSteps = true) :
    findPrefixProofVersion init m (fuel + 1) hash portionSteps = some hash := by
  simp [findPrefixProofVersion, hp, hpre]

theorem commitProofPortion_of_parent_isPrefix (sessions : Sessions)
    (sessionId : String) (proofPortion : List String) (newVersion : Nat)
    (parentHash : String) (session : Session) (pv : ProofVersion)
    (hs : mapGetJS sessions sessionId = some session)
    (hp : mapGetJS session.proofVersions parentHash = some pv)
    (hpre : isPrefixCheck pv.proofSteps (commitPortionSteps proofPortion) = true) :
    commitProofPortion sessions sessionId proofPortion newVersion parentHash =
      (some (commitHashOf proofPortion parentHash),
       mapSetJS sessions sessionId
         { session with
             proofVersions :=
               mapSetJS
                 (mapSetJS session.proofVersions parentHash
                   { pv with childrenHashes :=
                       pv.childrenHashes ++ [commitHashOf proofPortion parentHash] })
                 (commitHashOf proofPortion parentHash)
                 (commitNodeOf proofPortion parentHash),
             auxFileVersionNumber := newVersion }) := by
  have hfind :
      findPrefixProofVersion
          ((mapGetJS sessions sessionId).bind (fun s => mapFirstKeyJS s.proofVersions))
          session.proofVersions (session.proofVersions.length + 1) parentHash
          (commitPortionSteps proofPortion) = some parentHash :=
    findPrefixProofVersion_of_isPrefix _ _ _ _ _ pv hp hpre
  simp [commitProofPortion, hs, commitPortionSteps, hp, commitHashOf,
    commitNodeOf, commitContentLines] at hfind ⊢
  rw [hfind]
  simp [hp]

theorem findPrefixProofVersion_of_unresolved (init : Option String) (m : PVMap)
    (fuel : Nat) (hash : String) (portionSteps : List String)
    (hp : mapGetJS m hash = none) :
    findPrefixProofVersion init m fuel hash portionSteps = none := by
  cases fuel with
  | zero => simp [findPrefixProofVersion]
  | succ fuel => simp [findPrefixProofVersion, hp]

/-! ## C3: the attachment-node search of `commitProofPortion` -/

/-- C3 (amended): the search does *not* pick the deepest prefix node and does
*not* fall back to the root on an unresolved parent hash: (a) when the
supplied parent hash does not resolve, the search is undefined and the commit
returns no hash and leaves the registry unchanged; (b) when the node at the
supplied parent hash passes the prefix test, the search answers that node
itself — before ever visiting its children — and the commit attaches the new
node there, even if a descendant also passes the test with a longer step
list. -/
theorem c3_commit_attachment (sessions : Sessions) (sessionId parentHash : String)
    (proofPortion : List String) (newVersion : Nat) :
    (∀ session, mapGetJS sessions sessionId = some session →
      mapGetJS session.proofVersions parentHash = none →
      commitProofPortion sessions sessionId proofPortion newVersion parentHash =
        (none, sessions)) ∧
    (∀ session pv, mapGetJS sessions sessionId = some session →
      mapGetJS session.proofVersions parentHash = some pv →
      isPrefixCheck pv.proofSteps (commitPortionSteps proofPortion) = true →
      findPrefixProofVersion (mapFirstKeyJS session.proofVersions)
          session.proofVersions (session.proofVersions.length + 1) parentHash
          (commitPortionSteps proofPortion) = some parentHash ∧
      (commitProofPortion sessions sessionId proofPortion newVersion parentHash).1 =
        some (commitHashOf proofPortion parentHash)) := by
  constructor
  · intro session hs hp
    have hfind := findPrefixProofVersion_of_unresolved
      ((mapGetJS sessions sessionId).bind (fun s => mapFirstKeyJS s.proofVersions))
      session.proofVersions (session.proofVersions.length + 1) parentHash
      (commitPortionSteps proofPortion) hp
    simp [commitPortionSteps, commitContentLines, hs] at hfind
    simp [commitProofPortion, hs, hfind, commitContentLines]
  · intro session pv hs hp hpre
    constructor
    · exact findPrefixProofVersion_of_isPrefix _ _ _ _ _ pv hp hpre
    · rw [commitProofPortion_of_parent_isPrefix sessions sessionId proofPortion
        newVersion parentHash session pv hs hp hpre]

/-- A concrete session for the C2/C3/C7 scenarios: root version only. -/
def mkSessionW (m : PVMap) : Session :=
  { id := "s", sourceFilePath := "f.v", theoremName := "t",
    theoremStatement := "Theorem t : True.", auxFilePath := "aux.v",
    auxFileVersionNumber := 1,
    filePrefixContent := ["Require Import A.", "Theorem t : True."],
    proofVersions := m }

def rootOnlyStore : PVMap := [(rootVersionHash, initialProofVersion)]

def sessionsRootW : Sessions := [("s", mkSessionW rootOnlyStore)]

/-- Witness for `c3_commit_attachment`: commit `["intros."]` under the root
of a fresh session. -/
theorem c3_commit_attachment_witness :
    (commitProofPortion sessionsRootW "s" ["intros."] 4 rootVersionHash).1 =
      some (commitHashOf ["intros."] rootVersionHash) := by
  have h := (c3_commit_attachment sessionsRootW "s" rootVersionHash
      ["intros."] 4).2 (mkSessionW rootOnlyStore) initialProofVersion
      rfl rfl (by decide)
  exact h.2

/-- The version store after committing `["intros."]` under the root: the new
node `hashAW` is the root's child. -/
def hashAW : String := commitHashOf ["intros."] rootVersionHash

def storeWithChildW : PVMap :=
  [(rootVersionHash, { initialProofVersion with childrenHashes := [hashAW] }),
   (hashAW, commitNodeOf ["intros."] rootVersionHash)]

def sessionsChildW : Sessions := [("s", mkSessionW storeWithChildW)]

/-- C3 counterexample: committing `["intros.", "auto."]` with the root as the
supplied parent attaches the new node to the *root*, although the root's
child (`hashAW`, step list `["intros.", "."]`) is a deeper node whose step
list is also an exact prefix of the new step list — the deepest qualifying
node is not chosen. -/
theorem c3_counterexample :
    (commitProofPortion sessionsChildW "s" ["intros.", "auto."] 4
        rootVersionHash).1 =
      some (commitHashOf ["intros.", "auto."] rootVersionHash) ∧
    ((mapGetJS (commitProofPortion sessionsChildW "s" ["intros.", "auto."] 4
        rootVersionHash).2 "s").bind
      (fun s => mapGetJS s.proofVersions
        (commitHashOf ["intros.", "auto."] rootVersionHash))).map
          (fun n => n.parentHash) =
      some (some rootVersionHash) ∧
    isPrefixCheck (commitNodeOf ["intros."] rootVersionHash).proofSteps
      (commitPortionSteps ["intros.", "auto."]) = true ∧
    (commitNodeOf ["intros."] rootVersionHash).proofSteps.length >
      initialProofVersion.proofSteps.length ∧
    hashAW ≠ rootVersionHash := by
  refine ⟨by decide, by decide, by decide, by decide, by decide⟩

/-! ## C2: committing the same content under the same parent twice -/

/-- C2 (amended): repeating a commit of identical content under the same
parent hash returns the same hash both times and adds no second entry to the
version map (the entry at the hash is overwritten with an equal node), but it
does not leave the tree unchanged: the parent's children list receives a
second, duplicate occurrence of the hash. -/
theorem c2_commit_idempotence (sessions : Sessions) (sessionId : String)
    (proofPortion : List String) (v1 v2 : Nat) (parentHash : String)
    (session : Session) (pv : ProofVersion)
    (hs : mapGetJS sessions sessionId = some session)
    (hp : mapGetJS session.proofVersions parentHash = some pv)
    (hpre : isPrefixCheck pv.proofSteps (commitPortionSteps proofPortion) = true)
    (hneq : commitHashOf proofPortion parentHash ≠ parentHash) :
    ∃ S1 S2 session1 session2,
      commitProofPortion sessions sessionId proofPortion v1 parentHash =
        (some (commitHashOf proofPortion parentHash), S1) ∧
      commitProofPortion S1 sessionId proofPortion v2 parentHash =
        (some (commitHashOf proofPortion parentHash), S2) ∧
      mapGetJS S1 sessionId = some session1 ∧
      mapGetJS S2 sessionId = some session2 ∧
      session2.proofVersions.length = session1.proofVersions.length ∧
      mapGetJS session2.proofVersions (commitHashOf proofPortion parentHash) =
        mapGetJS session1.proofVersions (commitHashOf proofPortion parentHash) ∧
      mapGetJS session1.proofVersions parentHash =
        some { pv with childrenHashes :=
          pv.childrenHashes ++ [commitHashOf proofPortion parentHash] } ∧
      mapGetJS session2.proofVersions parentHash =
        some { pv with childrenHashes :=
          pv.childrenHashes ++ [commitHashOf proofPortion parentHash,
            commitHashOf proofPortion parentHash] } := by
  set h := commitHashOf proofPortion parentHash with hh
  set node := commitNodeOf proofPortion parentHash with hnode
  set pv1 : ProofVersion :=
    { pv with childrenHashes := pv.childrenHashes ++ [h] } with hpv1
  set m2 := mapSetJS (mapSetJS session.proofVersions parentHash pv1) h node with hm2
  set session1 : Session :=
    { session with proofVersions := m2, auxFileVersionNumber := v1 } with hsess1
  have hc1 := commitProofPortion_of_parent_isPrefix sessions sessionId
    proofPortion v1 parentHash session pv hs hp hpre
  have hget1 : mapGetJS (mapSetJS sessions sessionId session1) sessionId =
      some session1 := mapGetJS_mapSetJS_same _ _ _
  have hgetp1 : mapGetJS m2 parentHash = some pv1 := by
    rw [hm2, mapGetJS_mapSetJS_ne _ _ (fun hx => hneq hx.symm),
      mapGetJS_mapSetJS_same]
  have hpre1 : isPrefixCheck pv1.proofSteps (commitPortionSteps proofPortion) =
      true := hpre
  have hc2 := commitProofPortion_of_parent_isPrefix
    (mapSetJS sessions sessionId session1) sessionId proofPortion v2 parentHash
    session1 pv1 hget1 hgetp1 hpre1
  set pv2 : ProofVersion :=
    { pv1 with childrenHashes := pv1.childrenHashes ++ [h] } with hpv2
  set m3 := mapSetJS (mapSetJS m2 parentHash pv2) h node with hm3
  set session2 : Session :=
    { session1 with proofVersions := m3, auxFileVersionNumber := v2 } with hsess2
  refine ⟨mapSetJS sessions sessionId session1,
    mapSetJS (mapSetJS sessions sessionId session1) sessionId session2,
    session1, session2, hc1, ?_, hget1, mapGetJS_mapSetJS_same _ _ _, ?_, ?_, ?_, ?_⟩
  · exact hc2
  · -- no second entry: both sets in the second commit hit existing keys
    have hlen1 : (mapSetJS m2 parentHash pv2).length = m2.length :=
      mapSetJS_length_of_mem _ _ _ (by rw [hgetp1]; rfl)
    have hgeth : mapGetJS (mapSetJS m2 parentHash pv2) h = some node := by
      rw [mapGetJS_mapSetJS_ne _ _ hneq, hm2, mapGetJS_mapSetJS_same]
    have hlen2 : m3.length = (mapSetJS m2 parentHash pv2).length := by
      rw [hm3]
      exact mapSetJS_length_of_mem _ _ _ (by rw [hgeth]; rfl)
    show m3.length = m2.length
    rw [hlen2, hlen1]
  · show mapGetJS m3 h = mapGetJS m2 h
    rw [hm3, mapGetJS_mapSetJS_same, hm2, mapGetJS_mapSetJS_same]
  · show mapGetJS m2 parentHash = some pv1
    exact hgetp1
  · show mapGetJS m3 parentHash =
      some { pv with childrenHashes := pv.childrenHashes ++ [h, h] }
    rw [hm3, mapGetJS_mapSetJS_ne _ _ (fun hx => hneq hx.symm),
      mapGetJS_mapSetJS_same, hpv2, hpv1]
    simp

/-- Witness for `c2_commit_idempotence`: the double commit of `["intros."]`
under the root of a fresh session. -/
theorem c2_commit_idempotence_witness :
    ∃ S1 S2 session1 session2,
      commitProofPortion sessionsRootW "s" ["intros."] 4 rootVersionHash =
        (some (commitHashOf ["intros."] rootVersionHash), S1) ∧
      commitProofPortion S1 "s" ["intros."] 7 rootVersionHash =
        (some (commitHashOf ["intros."] rootVersionHash), S2) ∧
      mapGetJS S1 "s" = some session1 ∧
      mapGetJS S2 "s" = some session2 ∧
      session2.proofVersions.length = session1.proofVersions.length ∧
      mapGetJS session2.proofVersions (commitHashOf ["intros."] rootVersionHash) =
        mapGetJS session1.proofVersions (commitHashOf ["intros."] rootVersionHash) ∧
      mapGetJS session1.proofVersions rootVersionHash =
        some { initialProofVersion with childrenHashes :=
          initialProofVersion.childrenHashes ++
            [commitHashOf ["intros."] rootVersionHash] } ∧
      mapGetJS session2.proofVersions rootVersionHash =
        some { initialProofVersion with childrenHashes :=
          initialProofVersion.childrenHashes ++
            [commitHashOf ["intros."] rootVersionHash,
             commitHashOf ["intros."] rootVersionHash] } :=
  c2_commit_idempotence sessionsRootW "s" ["intros."] 4 7 rootVersionHash
    (mkSessionW rootOnlyStore) initialProofVersion rfl rfl (by decide) (by decide)

/-- C2 counterexample: after the double commit the root's children list holds
the hash twice — the tree is *not* the same as after the first commit alone. -/
theorem c2_counterexample :
    ((mapGetJS (commitProofPortion
        (commitProofPortion sessionsRootW "s" ["intros."] 4 rootVersionHash).2
        "s" ["intros."] 7 rootVersionHash).2 "s").bind
      (fun s => mapGetJS s.proofVersions rootVersionHash)).map
        (fun n => n.childrenHashes) =
      some [hashAW, hashAW] ∧
    ((mapGetJS (commitProofPortion sessionsRootW "s" ["intros."] 4
        rootVersionHash).2 "s").bind
      (fun s => mapGetJS s.proofVersions rootVersionHash)).map
        (fun n => n.childrenHashes) =
      some [hashAW] ∧
    ([hashAW, hashAW] : List String) ≠ [hashAW] := by
  refine ⟨by decide, by decide, by decide⟩

/-! ## C7: the step normalization of `commitProofPortion` -/

/-- The normalization the specification describes: split on the step
delimiter, trim each token, drop empty tokens (re-appending the delimiter, as
the controller's own `validProofStepsPrefix` normalization does). -/
def specNormalizeSteps (lines : List String) : List String :=
  ((((lines.map (fun line => jsSplit line ".")).join).map jsTrim).filter
    (fun s => !(s == ""))).map (fun s => s ++ ".")

/-- C7 (amended): `commitProofPortion` splits each content line on `"."` and
appends `"."` to *every* resulting piece — without trimming and without
dropping empty pieces — and stores exactly that list as the new node's step
list. -/
theorem c7_commit_step_normalization (sessions : Sessions) (sessionId : String)
    (proofPortion : List String) (newVersion : Nat) (parentHash : String)
    (session : Session) (pv : ProofVersion)
    (hs : mapGetJS sessions sessionId = some session)
    (hp : mapGetJS session.proofVersions parentHash = some pv)
    (hpre : isPrefixCheck pv.proofSteps (commitPortionSteps proofPortion) = true) :
    ∃ S1 session1,
      commitProofPortion sessions sessionId proofPortion newVersion parentHash =
        (some (commitHashOf proofPortion parentHash), S1) ∧
      mapGetJS S1 sessionId = some session1 ∧
      mapGetJS session1.proofVersions (commitHashOf proofPortion parentHash) =
        some (commitNodeOf proofPortion parentHash) ∧
      (commitNodeOf proofPortion parentHash).proofSteps =
        (((proofPortion.map (fun line => replaceFirstWithEmpty line "Proof.")).map
          (fun line => jsSplit line ".")).join).map (fun step => step ++ ".") := by
  have hc := commitProofPortion_of_parent_isPrefix sessions sessionId
    proofPortion newVersion parentHash session pv hs hp hpre
  refine ⟨_, _, hc, mapGetJS_mapSetJS_same _ _ _, ?_, rfl⟩
  exact mapGetJS_mapSetJS_same _ _ _

/-- Witness for `c7_commit_step_normalization` on a fresh session. -/
theorem c7_commit_step_normalization_witness :
    ∃ S1 session1,
      commitProofPortion sessionsRootW "s" ["intros."] 4 rootVersionHash =
        (some (commitHashOf ["intros."] rootVersionHash), S1) ∧
      mapGetJS S1 "s" = some session1 ∧
      mapGetJS session1.proofVersions (commitHashOf ["intros."] rootVersionHash) =
        some (commitNodeOf ["intros."] rootVersionHash) ∧
      (commitNodeOf ["intros."] rootVersionHash).proofSteps =
        (((["intros."].map (fun line => replaceFirstWithEmpty line "Proof.")).map
          (fun line => jsSplit line ".")).join).map (fun step => step ++ ".") :=
  c7_commit_step_normalization sessionsRootW "s" ["intros."] 4 rootVersionHash
    (mkSessionW rootOnlyStore) initialProofVersion rfl rfl (by decide)

/-- C7 counterexample: on `["intros."]` the stored step list is
`["intros.", "."]` — the empty piece after the final delimiter is kept (as a
bare dot) — while the claimed split-trim-drop normalization yields
`["intros."]`. -/
theorem c7_counterexample :
    commitPortionSteps ["intros."] = ["intros.", "."] ∧
    specNormalizeSteps ["intros."] = ["intros."] ∧
    commitPortionSteps ["intros."] ≠ specNormalizeSteps ["intros."] ∧
    ((mapGetJS (commitProofPortion sessionsRootW "s" ["intros."] 4
        rootVersionHash).2 "s").bind
      (fun s => mapGetJS s.proofVersions hashAW)).map (fun n => n.proofSteps) =
      some ["intros.", "."] := by
  refine ⟨by decide, by decide, by decide, by decide⟩

/-! ## C9: best-effort session teardown -/

/-- C9: `closeSession` always returns successfully: the session entry is
removed from the registry whether or not the scratch-file deletion succeeds,
the deletion failure being swallowed (the file then simply survives). -/
theorem c9_closeSession_best_effort (st : RegistryState) (sessionId : String)
    (unlinkFails : Bool) :
    (∃ st', closeSession st sessionId unlinkFails = Except.ok st' ∧
        mapGetJS st'.sessions sessionId = none) ∧
    (∀ session, mapGetJS st.sessions sessionId = some session →
      closeSession st sessionId unlinkFails = Except.ok
        { sessions := mapDeleteJS st.sessions sessionId,
          files := if unlinkFails then st.files
            else st.files.filter (fun p => !(p == session.auxFilePath)) }) := by
  constructor
  · cases hs : mapGetJS st.sessions sessionId with
    | none =>
      exact ⟨st, by simp [closeSession, hs], hs⟩
    | some session =>
      refine ⟨{ sessions := mapDeleteJS st.sessions sessionId,
                files := match unlinkSyncFs st.files session.auxFilePath unlinkFails with
                         | Except.ok fs => fs
                         | Except.error _ => st.files }, ?_, ?_⟩
      · simp [closeSession, hs]
      · exact mapGetJS_mapDeleteJS_same _ _
  · intro session hs
    cases unlinkFails <;> simp [closeSession, hs, unlinkSyncFs]

/-- Witness for `c9_closeSession_best_effort`: closing a one-session registry
whose scratch-file deletion fails still removes the session and reports
success. -/
theorem c9_closeSession_best_effort_witness :
    closeSession { sessions := sessionsRootW, files := ["aux.v"] } "s" true =
      Except.ok { sessions := [], files := ["aux.v"] } := by
  have h := (c9_closeSession_best_effort
    { sessions := sessionsRootW, files := ["aux.v"] } "s" true).2
    (mkSessionW rootOnlyStore) rfl
  simpa [sessionsRootW, mapDeleteJS, List.filter] using h

/-! ## The `/check-proof` controller operation (`CoqProjectController.checkProofInFile`) -/

structure ApiGoal where
  hypothesis : List String
  conclusion : String
deriving Repr, DecidableEq

/-- `hypToString` (core/exposedCompletionGeneratorUtils): the helper's file is
outside the excerpted sources; modelled as the usual `names : type` rendering.
No claim depends on the exact rendering. -/
def hypToString (hyp : Hyp) : String :=
  String.intercalate " " hyp.names ++ " : " ++ hyp.ty

/-- The controller's response payload (`ProofCheckResponse`). The source's
`validPrefix` field is called `validPfx` here. -/
structure ProofCheckResponse where
  success : Bool
  message : String
  hash : Option String := none
  proof : Option String := none
  goals : Option (List ApiGoal) := none
  error : Option ProofError := none
  validPfx : Option String := none
  attemptedProof : Option String := none
deriving Repr, DecidableEq

/-- The response the surrounding `try`/`catch` produces when an internal step
throws `Error(msg)`. -/
def catchResponse (msg : String) : ProofCheckResponse :=
  { success := false, message := "Failed to check proof",
    error := some { message := msg } }

/-- JS `arr.indexOf(x)`. -/
def jsIndexOf (l : List String) (x : String) : Int :=
  match l.findIdx? (fun y => y == x) with
  | some i => (i : Int)
  | none => -1

/-- JS `arr.slice(0, stop)` with a possibly negative `stop`. -/
def jsSliceTo {α : Type} (l : List α) (stop : Int) : List α :=
  if stop < 0 then l.take (l.length - (-stop).toNat) else l.take stop.toNat

/-- The `validProofStepsPrefix` normalization the controller applies on the
admit/complete paths: strip the first `Proof.` of each line, split on `"."`,
trim, drop empties, re-append the dot. -/
def controllerValidSteps (lines : List String) : List String :=
  specNormalizeSteps (lines.map (fun line => replaceFirstWithEmpty line "Proof."))

/-- `CoqProjectController.checkProofInFile` (the `/check-proof` route):
`result` is the oracle answer of `checkCoqProof` for the prepared fragment;
`resultValidPfx` the answer of the second check the error path performs on
the valid prefix. File-system and checker side effects live in the oracles;
the function returns the response and the updated registry. The unreachable
final `else` branch of the source (`"Unknown error"`) has no reachable
counterpart here because the `Result` type is matched exhaustively. -/
def checkProofInFile (sessions : Sessions) (proof sessionId proofVersionHash : String)
    (result : Except ProofError (List ApiGoal))
    (resultValidPfx : Except ProofError (List ApiGoal)) :
    ProofCheckResponse × Sessions :=
  match mapGetJS sessions sessionId with
  | none => ({ success := false, message := "Session not found" }, sessions)
  | some currentSession =>
    let preparedProof := prepareProofToCheck proof
    let preparedProofLines := jsSplit preparedProof "\n"
    match mapGetJS currentSession.proofVersions proofVersionHash with
    | none => ({ success := false, message := "Proof version not found" }, sessions)
    | some _currentProofVersion =>
      let v := currentSession.auxFileVersionNumber
      let sessions1 := mapSetJS sessions sessionId
        { currentSession with auxFileVersionNumber := v + 2 }
      match commitProofPortion sessions1 sessionId preparedProofLines
          (v + 2 + 1) proofVersionHash with
      | (none, sessionsC) => (catchResponse "Failed to commit proof portion", sessionsC)
      | (some updatedProofVersionHash, sessions2) =>
        match mapGetJS sessions2 sessionId with
        | none => (catchResponse "Session not found", sessions2)
        | some session2 =>
          if result.isOk ∧ (result.toOption.getD []).length = 0 ∧
              includesStr preparedProof "admit." = false then
            -- Case 1: proof complete and valid
            match mapGetJS session2.proofVersions updatedProofVersionHash with
            | none => (catchResponse "Proof version not found", sessions2)
            | some updatedProofVersion =>
              let updatedProofVersion :=
                { updatedProofVersion with
                    validProofStepsPfx := some (controllerValidSteps preparedProofLines),
                    isIncomplete := some false }
              let sessions3 := mapSetJS sessions2 sessionId
                { session2 with proofVersions :=
                    (mapSetJS session2.proofVersions updatedProofVersionHash
                      updatedProofVersion) }
              ({ success := true, message := "Proof complete and valid",
                 proof := some preparedProof, goals := some [],
                 hash := some updatedProofVersionHash }, sessions3)
          else if result.isOk ∧ (result.toOption.getD []).length = 0 ∧
              includesStr preparedProof "admit." = true then
            ({ success := true, message := "Proof is incomplete but valid so far. ",
               proof := some preparedProof, goals := some [] }, sessions2)
          else
            match result with
            | Except.ok currentGoals =>
              -- Case 2, first disjunct: remaining goals
              match mapGetJS session2.proofVersions updatedProofVersionHash with
              | none => (catchResponse "Proof version not found", sessions2)
              | some updatedProofVersion =>
                let validSteps :=
                  if includesStr preparedProof "admit." then
                    controllerValidSteps (jsSliceTo preparedProofLines
                      (jsIndexOf preparedProofLines "admit." + 1))
                  else specNormalizeSteps preparedProofLines
                let updatedProofVersion :=
                  { updatedProofVersion with validProofStepsPfx := some validSteps }
                let sessions3 := mapSetJS sessions2 sessionId
                  { session2 with proofVersions :=
                      (mapSetJS session2.proofVersions updatedProofVersionHash
                        updatedProofVersion) }
                ({ success := true, message := "Proof is incomplete but valid so far",
                   hash := some updatedProofVersionHash, proof := some preparedProof,
                   goals := some currentGoals }, sessions3)
            | Except.error e =>
              if e.name = some "stack_subgoals" then
                -- Case 2, stacked subgoals
                match mapGetJS session2.proofVersions updatedProofVersionHash with
                | none => (catchResponse "Proof version not found", sessions2)
                | some updatedProofVersion =>
                  let validSteps :=
                    if includesStr preparedProof "admit." then
                      controllerValidSteps (jsSliceTo preparedProofLines
                        (jsIndexOf preparedProofLines "admit." + 1))
                    else specNormalizeSteps preparedProofLines
                  let updatedProofVersion :=
                    { updatedProofVersion with validProofStepsPfx := some validSteps }
                  let sessions3 := mapSetJS sessions2 sessionId
                    { session2 with proofVersions :=
                        (mapSetJS session2.proofVersions updatedProofVersionHash
                          updatedProofVersion) }
                  match e.stackPayload with
                  | none => (catchResponse "Unexpected token in JSON", sessions3)
                  | some payload =>
                    let found := payload.find? (fun kek => 0 < kek.2.length)
                    let apiGoals :=
                      match found with
                      | some kek => kek.2.map (fun goal =>
                          { conclusion := goal.ty,
                            hypothesis := goal.hyps.map hypToString })
                      | none => []
                    let messageToSend :=
                      "Your proof is incomplete but valid so far. It has the following goal at the depth " ++
                        (match found with
                         | some kek => toString kek.1 ++ ":"
                         | none => "")
                    ({ success := true, message := messageToSend,
                       hash := some updatedProofVersionHash,
                       proof := some preparedProof, goals := some apiGoals }, sessions3)
              else
                -- Case 3: the fragment was rejected with a diagnostic
                match e.location with
                | none => (catchResponse "Errorous line not found", sessions2)
                | some loc =>
                  if loc.start.line = 0 then
                    (catchResponse "Errorous line not found", sessions2)
                  else
                    let proofStartLine := session2.filePrefixContent.length + 1
                    match mapGetJS session2.proofVersions updatedProofVersionHash with
                    | none => (catchResponse "Proof content not found", sessions2)
                    | some updatedProofVersion =>
                      let errorousLineNumberInProof : Int :=
                        (loc.start.line : Int) - (proofStartLine : Int) - 1
                      let validProofPortionLines :=
                        jsSliceTo updatedProofVersion.proofContent
                          errorousLineNumberInProof
                      let preparedValidProofPortion :=
                        prepareProofToCheck (joinLines validProofPortionLines)
                      match resultValidPfx with
                      | Except.error e2 =>
                        (catchResponse
                          ("Failed to check valid proof portion: " ++ e2.message),
                         sessions2)
                      | Except.ok goals2 =>
                        let v2 := session2.auxFileVersionNumber
                        let sessions3 := mapSetJS sessions2 sessionId
                          { session2 with auxFileVersionNumber := v2 + 2 }
                        match commitProofPortion sessions3 sessionId
                            validProofPortionLines (v2 + 2 + 1)
                            updatedProofVersionHash with
                        | (none, sessionsC) =>
                          (catchResponse "Failed to commit valid proof portion",
                           sessionsC)
                        | (some hashForValidPfx, sessions4) =>
                          ({ success := false,
                             message := "Proof contains errors " ++ e.message ++
                               " at L" ++ toString loc.start.line,
                             validPfx := some preparedValidProofPortion,
                             attemptedProof := some preparedProof,
                             goals := some goals2,
                             hash := some hashForValidPfx }, sessions4)

/-- Any successful `commitProofPortion` call: the returned registry holds the
session, the version map at the returned hash holds the new node, and the
counter was overwritten with `newVersion`. -/
theorem commitProofPortion_some (sessions : Sessions) (sessionId : String)
    (proofPortion : List String) (newVersion : Nat) (parentHash : String)
    (h : String) (S : Sessions)
    (hc : commitProofPortion sessions sessionId proofPortion newVersion parentHash =
      (some h, S)) :
    ∃ session', mapGetJS S sessionId = some session' ∧
      (mapGetJS session'.proofVersions h).isSome = true ∧
      session'.auxFileVersionNumber = newVersion := by
  simp only [commitProofPortion] at hc
  split at hc
  · simp at hc
  · split at hc
    · simp at hc
    · split at hc
      · simp at hc
      · injection hc with hh hS
        injection hh with hh
        subst hS
        subst hh
        exact ⟨_, mapGetJS_mapSetJS_same _ _ _,
          by simp [mapGetJS_mapSetJS_same], rfl⟩

/-! ## C6: the completion rule of `/check-proof` -/

/-- C6: a checked fragment whose check returns zero goals and whose prepared
form contains no `admit.` marker is reported as proof-complete: success, the
`"Proof complete and valid"` message, an empty goal list, and the new version
hash. (Hypotheses: the session and the supplied proof version resolve and the
commit step returns a hash — the operation answers "not found" or throws into
its catch-all otherwise.) -/
theorem c6_completion_rule (sessions : Sessions)
    (proof sessionId proofVersionHash : String)
    (resultValidPfx : Except ProofError (List ApiGoal))
    (session : Session) (pv : ProofVersion)
    (updatedHash : String) (sessions2 : Sessions)
    (hs : mapGetJS sessions sessionId = some session)
    (hp : mapGetJS session.proofVersions proofVersionHash = some pv)
    (hc : commitProofPortion
        (mapSetJS sessions sessionId
          { session with auxFileVersionNumber := session.auxFileVersionNumber + 2 })
        sessionId (jsSplit (prepareProofToCheck proof) "\n")
        (session.auxFileVersionNumber + 2 + 1) proofVersionHash =
      (some updatedHash, sessions2))
    (hNoAdm : includesStr (prepareProofToCheck proof) "admit." = false) :
    (checkProofInFile sessions proof sessionId proofVersionHash
        (Except.ok []) resultValidPfx).1 =
      { success := true, message := "Proof complete and valid",
        proof := some (prepareProofToCheck proof), goals := some [],
        hash := some updatedHash } := by
  obtain ⟨session2, hget2, hsome, _hver⟩ :=
    commitProofPortion_some _ _ _ _ _ _ _ hc
  obtain ⟨node, hnode⟩ := Option.isSome_iff_exists.mp hsome
  simp [checkProofInFile, hs, hp, hc, hget2, hnode, hNoAdm,
    Except.isOk, Except.toBool, Except.toOption]

/-- Witness for `c6_completion_rule`: checking `"intros. reflexivity."` in a
fresh session with a zero-goal checker answer. -/
theorem c6_completion_rule_witness :
    (checkProofInFile sessionsRootW "intros. reflexivity." "s" rootVersionHash
        (Except.ok []) (Except.ok [])).1 =
      { success := true, message := "Proof complete and valid",
        proof := some (prepareProofToCheck "intros. reflexivity."),
        goals := some [],
        hash := some (commitHashOf
          (jsSplit (prepareProofToCheck "intros. reflexivity.") "\n")
          rootVersionHash) } :=
  c6_completion_rule sessionsRootW "intros. reflexivity." "s" rootVersionHash
    (Except.ok []) (mkSessionW rootOnlyStore) initialProofVersion
    (commitHashOf (jsSplit (prepareProofToCheck "intros. reflexivity.") "\n")
      rootVersionHash)
    (commitProofPortion
      (mapSetJS sessionsRootW "s"
        { mkSessionW rootOnlyStore with auxFileVersionNumber := 1 + 2 })
      "s" (jsSplit (prepareProofToCheck "intros. reflexivity.") "\n") (1 + 2 + 1)
      rootVersionHash).2
    rfl rfl (by decide) (by decide)

/-! ## C4: version-counter advancement per transaction -/

/-- C4 (amended): a candidate-check transaction that completes through the
commit on a non-error checker answer advances the session's document version
counter by exactly *three*, not two: the controller adds two (apply at v+1,
revert at v+2) and the commit then overwrites the counter with the passed
`newVersion = v+3`; the counter strictly increases. -/
theorem c4_version_counter_advances_by_three (sessions : Sessions)
    (proof sessionId proofVersionHash : String) (goals : List ApiGoal)
    (resultValidPfx : Except ProofError (List ApiGoal))
    (session : Session) (pv : ProofVersion)
    (updatedHash : String) (sessions2 : Sessions)
    (hs : mapGetJS sessions sessionId = some session)
    (hp : mapGetJS session.proofVersions proofVersionHash = some pv)
    (hc : commitProofPortion
        (mapSetJS sessions sessionId
          { session with auxFileVersionNumber := session.auxFileVersionNumber + 2 })
        sessionId (jsSplit (prepareProofToCheck proof) "\n")
        (session.auxFileVersionNumber + 2 + 1) proofVersionHash =
      (some updatedHash, sessions2)) :
    ((mapGetJS (checkProofInFile sessions proof sessionId proofVersionHash
        (Except.ok goals) resultValidPfx).2 sessionId).map
      (fun s => s.auxFileVersionNumber)) =
      some (session.auxFileVersionNumber + 3) ∧
    session.auxFileVersionNumber < session.auxFileVersionNumber + 3 := by
  refine ⟨?_, by omega⟩
  obtain ⟨session2, hget2, hsome, hver⟩ :=
    commitProofPortion_some _ _ _ _ _ _ _ hc
  obtain ⟨node, hnode⟩ := Option.isSome_iff_exists.mp hsome
  have hver3 : session2.auxFileVersionNumber = session.auxFileVersionNumber + 3 := by
    omega
  by_cases hAdm : includesStr (prepareProofToCheck proof) "admit." = true
  · by_cases hlen : goals.length = 0
    · simp [checkProofInFile, hs, hp, hc, hget2, hnode, mapGetJS_mapSetJS_same,
        hAdm, hlen, hver3, Except.isOk, Except.toBool, Except.toOption]
    · simp [checkProofInFile, hs, hp, hc, hget2, hnode, mapGetJS_mapSetJS_same,
        hAdm, hlen, hver3, Except.isOk, Except.toBool, Except.toOption]
  · by_cases hlen : goals.length = 0
    · simp [checkProofInFile, hs, hp, hc, hget2, hnode, mapGetJS_mapSetJS_same,
        hAdm, hlen, hver3, Except.isOk, Except.toBool, Except.toOption]
    · simp [checkProofInFile, hs, hp, hc, hget2, hnode, mapGetJS_mapSetJS_same,
        hAdm, hlen, hver3, Except.isOk, Except.toBool, Except.toOption]

/-- Witness for `c4_version_counter_advances_by_three` on a fresh session
(initial counter 1). -/
theorem c4_version_counter_advances_by_three_witness :
    ((mapGetJS (checkProofInFile sessionsRootW "intros." "s" rootVersionHash
        (Except.ok []) (Except.ok [])).2 "s").map
      (fun s => s.auxFileVersionNumber)) = some (1 + 3) ∧
    1 < 1 + 3 :=
  c4_version_counter_advances_by_three sessionsRootW "intros." "s"
    rootVersionHash [] (Except.ok []) (mkSessionW rootOnlyStore)
    initialProofVersion
    (commitHashOf (jsSplit (prepareProofToCheck "intros.") "\n") rootVersionHash)
    (commitProofPortion
      (mapSetJS sessionsRootW "s"
        { mkSessionW rootOnlyStore with auxFileVersionNumber := 1 + 2 })
      "s" (jsSplit (prepareProofToCheck "intros.") "\n") (1 + 2 + 1)
      rootVersionHash).2
    rfl rfl (by decide)

/-- C4 counterexample: one transaction on a fresh session (counter 1) leaves
the counter at 4, not at the claimed 1 + 2. -/
theorem c4_counterexample :
    ((mapGetJS (checkProofInFile sessionsRootW "intros." "s" rootVersionHash
        (Except.ok []) (Except.ok [])).2 "s").map
      (fun s => s.auxFileVersionNumber)) = some 4 ∧
    (4 : Nat) ≠ 1 + 2 := by
  refine ⟨by decide, by decide⟩

/-! ## C1: document restoration by the candidate-check transaction -/

/-- C1 (amended): the executor variant wired into the check-proof operation
(`coqCommandExecutor.ts`) rewrites the scratch file to exactly the baseline
prefix and applies the revert update at version v+2 on every outcome path
(error diagnostic, goals, goal-query failure); the executor variant with
string errors does so only on the paths without an error diagnostic — its
diagnostic path returns before any restoration. -/
theorem c1_transaction_restores_baseline (prefixLines : List String)
    (coqCode : String) (documentVersion : Nat) (diag : Option LspDiagnostic)
    (goalResp : Except GoalQueryError (List ProofGoal)) (doc : ScratchDoc) :
    ((CoqCodeExecutorCmd.getGoalAfterCoqCodeUnsafe prefixLines coqCode
        documentVersion diag goalResp doc).2 =
      { fileContent := joinLines prefixLines,
        lspVersion := documentVersion + 2,
        lspContent := joinLines prefixLines }) ∧
    (diag = none →
      (CoqCodeExecutorStr.getGoalAfterCoqCodeUnsafe prefixLines coqCode
          documentVersion diag goalResp doc).2 =
        { fileContent := joinLines prefixLines,
          lspVersion := documentVersion + 2,
          lspContent := joinLines prefixLines }) := by
  constructor
  · cases diag <;> cases goalResp <;>
      simp [CoqCodeExecutorCmd.getGoalAfterCoqCodeUnsafe, writeFileSync,
        appendFileSync, openTextDocument, updateTextDocument]
  · rintro rfl
    cases goalResp <;>
      simp [CoqCodeExecutorStr.getGoalAfterCoqCodeUnsafe, writeFileSync,
        appendFileSync, openTextDocument, updateTextDocument]

/-- Witness for `c1_transaction_restores_baseline` at a concrete input with
no diagnostic. -/
theorem c1_transaction_restores_baseline_witness :
    (CoqCodeExecutorCmd.getGoalAfterCoqCodeUnsafe ["A"] "B" 1 none
        (Except.ok []) { fileContent := "", lspVersion := 1, lspContent := "" }).2 =
      { fileContent := "A", lspVersion := 3, lspContent := "A" } ∧
    (CoqCodeExecutorStr.getGoalAfterCoqCodeUnsafe ["A"] "B" 1 none
        (Except.ok []) { fileContent := "", lspVersion := 1, lspContent := "" }).2 =
      { fileContent := "A", lspVersion := 3, lspContent := "A" } := by
  have h := c1_transaction_restores_baseline ["A"] "B" 1 none (Except.ok [])
    { fileContent := "", lspVersion := 1, lspContent := "" }
  exact ⟨h.1, h.2 rfl⟩

/-- A concrete error diagnostic for the C1 counterexample. -/
def diagC1 : LspDiagnostic :=
  { ppMessage := "syntax error",
    range := { start := { line := 1, character := 0 },
               stop := { line := 1, character := 1 } } }

/-- C1 counterexample: on the error-diagnostic path, the string-error executor
variant (the one the claim cites) leaves the candidate appended to the scratch
file and never applies the v+2 revert update. -/
theorem c1_counterexample :
    (CoqCodeExecutorStr.getGoalAfterCoqCodeUnsafe ["A"] "B" 1 (some diagC1)
        (Except.ok []) { fileContent := "", lspVersion := 1, lspContent := "" }).2.fileContent ≠
      joinLines ["A"] ∧
    (CoqCodeExecutorStr.getGoalAfterCoqCodeUnsafe ["A"] "B" 1 (some diagC1)
        (Except.ok []) { fileContent := "", lspVersion := 1, lspContent := "" }).2.lspVersion ≠
      1 + 2 := by
  constructor <;> decide

end RocqStar
